import Mathlib

/-!
# Verification of `@dizmo/functions-lock` (src/lib/lock.ts)

Shallow embedding of the `Lock` class.  The asynchronous, stateful
TypeScript code is modelled by explicit state passing over `St`:

* the pluggable storage (`localStorage` or the injected backend) is a map
  `String → Option Value`;
* the ambient `global` object (which holds the ephemeral id) is a map
  `String → Option String`;
* `new Date()` timestamps are drawn from a stream `times : Nat → Int`
  (milliseconds since epoch; `toISOString`/`getTime` round-trips exactly
  on integral milliseconds, so the ISO-string detour is dropped);
* `random(8)` tokens are drawn from a stream `rands : Nat → String`;
* a write-verification failure of `Storage.set` (the read-back not
  matching, surfaced as a `null` return) is modelled by the stream
  `failSet : Nat → Bool`, indexed by the running count of `set` calls:
  a failed `set` returns `none` and leaves the store unchanged.  The
  default in-memory storage never fails, i.e. `failSet ≡ false`.
-/

/-- The `MasterId` record: `{ now, eid, sid }` (lock.ts).  `now` is kept as
milliseconds since epoch instead of the ISO-8601 string. -/
structure MasterId where
  now : Int
  eid : String
  sid : Option String
deriving DecidableEq, Repr

/-- The `MasterIdWrapped` envelope: `{ value, nonce }` (lock.ts). -/
structure MasterIdWrapped where
  value : Option MasterId
  nonce : String
deriving DecidableEq, Repr

/-- Values held by the pluggable storage: strings (session id) or
wrapped master-id records. -/
inductive Value where
  | str (s : String)
  | wrapped (w : MasterIdWrapped)
deriving DecidableEq, Repr

/-- World state threaded through every operation of a `Lock`. -/
structure St where
  store : String → Option Value
  glob : String → Option String
  times : Nat → Int
  timeIdx : Nat
  rands : Nat → String
  randIdx : Nat
  failSet : Nat → Bool
  setIdx : Nat

/-- Pointwise map update. -/
def upd {α : Type} (f : String → Option α) (k : String) (v : Option α) :
    String → Option α :=
  fun k' => if k' = k then v else f k'

/-- The `getMasterIdPath`: `` `${this.name}/master-id/${index}` ``. -/
def getMasterIdPath (name : String) (index : Int) : String :=
  name ++ "/master-id/" ++ toString index

/-- The `getSessionIdPath`: `` `${this.name}/session-id` ``. -/
def getSessionIdPath (name : String) : String :=
  name ++ "/session-id"

/-- The `getEphemeralPath`: `` `${this.name}/ephemeral-id` ``. -/
def getEphemeralPath (name : String) : String :=
  name ++ "/ephemeral-id"

/-- Draw the next `new Date()` timestamp. -/
def nextTime (st : St) : Int × St :=
  (st.times st.timeIdx, { st with timeIdx := st.timeIdx + 1 })

/-- Draw the next `random(8)` token. -/
def nextRand (st : St) : String × St :=
  (st.rands st.randIdx, { st with randIdx := st.randIdx + 1 })

/-- The `Storage.get`: read a key (the default storage's parse round-trip is
the identity on values written by this module). -/
def storeGet (st : St) (key : String) : Option Value :=
  st.store key

/-- The `Storage.set` with the verifying read-back: on success it stores the
value and returns it; a write-verification failure (`failSet` true for
this call) returns `none` and leaves the store unchanged. -/
def storeSet (st : St) (key : String) (v : Value) : Option Value × St :=
  if st.failSet st.setIdx then
    (none, { st with setIdx := st.setIdx + 1 })
  else
    (some v, { st with store := upd st.store key (some v),
                       setIdx := st.setIdx + 1 })

/-- The `getEphemeralId`: return the ambient `global[<name>/ephemeral-id]`
if it is a non-empty string, else mint a fresh token, store it in the
ambient state and return it (`setEphemeralId`). -/
def getEphemeralId (name : String) (st : St) : String × St :=
  match st.glob (getEphemeralPath name) with
  | some s =>
    if s = "" then
      let (r, st) := nextRand st
      (r, { st with glob := upd st.glob (getEphemeralPath name) (some r) })
    else
      (s, st)
  | none =>
    let (r, st) := nextRand st
    (r, { st with glob := upd st.glob (getEphemeralPath name) (some r) })

/-- The `setSessionId`: `storage.set(sessionIdPath, value)`. -/
def setSessionId (name : String) (st : St) (value : String) :
    Option String × St :=
  let (result, st) := storeSet st (getSessionIdPath name) (Value.str value)
  match result with
  | some (Value.str s) => (some s, st)
  | _ => (none, st)

/-- The `getSessionId`: return the stored session id if it is a non-empty
string, else mint one via `setSessionId(random(8))` (whose verified
result — possibly `null` on a failed write — is returned). -/
def getSessionId (name : String) (st : St) : Option String × St :=
  match storeGet st (getSessionIdPath name) with
  | some (Value.str s) =>
    if s = "" then
      let (r, st) := nextRand st
      setSessionId name st r
    else
      (some s, st)
  | _ =>
    let (r, st) := nextRand st
    setSessionId name st r

/-- The `newMasterId`: `{ now: new Date().toISOString(), eid, sid }`,
evaluated in source order. -/
def newMasterId (name : String) (st : St) : MasterId × St :=
  let (t, st) := nextTime st
  let (eid, st) := getEphemeralId name st
  let (sid, st) := getSessionId name st
  (⟨t, eid, sid⟩, st)

/-- The `cmpMasterId`: equal `eid`, equal `sid`, and both `sid` non-null. -/
def cmpMasterId (lhs rhs : MasterId) : Bool :=
  if lhs.eid = rhs.eid then
    if lhs.sid = rhs.sid then
      decide (lhs.sid ≠ none ∧ rhs.sid ≠ none)
    else false
  else false

/-- The `setMasterId`: wrap `value` with a fresh nonce, `storage.set` it and
return `result ? result.value : null`. -/
def setMasterId (name : String) (st : St) (index : Int)
    (value : Option MasterId) : Option MasterId × St :=
  let (nonce, st) := nextRand st
  let (result, st) :=
    storeSet st (getMasterIdPath name index)
      (Value.wrapped ⟨value, nonce⟩)
  match result with
  | some (Value.wrapped w) => (w.value, st)
  | _ => (none, st)

/-- The `setMasterId(index, await newMasterId())` — the tail expression of
`getMasterId`, factored out. -/
def mintMasterId (name : String) (st : St) (index : Int) :
    Option MasterId × St :=
  let (m, st) := newMasterId name st
  setMasterId name st index (some m)

/-- The `getMasterId`: return the stored record when it wraps a non-null
value and `force` is false; otherwise mint a fresh `MasterId` and store
it via `setMasterId`. -/
def getMasterId (name : String) (st : St) (index : Int) (force : Bool) :
    Option MasterId × St :=
  match storeGet st (getMasterIdPath name index) with
  | some (Value.wrapped w) =>
    if w.value.isSome ∧ force = false then
      (w.value, st)
    else
      mintMasterId name st index
  | _ => mintMasterId name st index

/-- The `lockAge`, with explicit fuel bounding the recursion depth: `none`
means the computation would recurse deeper than `fuel` nested calls
(the TypeScript original has no such bound). -/
def lockAge (fuel : Nat) (name : String) (st : St) (index : Int)
    (expire : Option Int) (force : Bool) : Option (Option Int × St) :=
  match fuel with
  | 0 => none
  | fuel + 1 =>
    let (gid, st) := getMasterId name st index force
    match gid with
    | some g =>
      let (m, st) := newMasterId name st
      let result_ms := m.now - g.now
      match expire with
      | some e =>
        if |result_ms| > e then
          lockAge fuel name st index expire true
        else if cmpMasterId g m then
          some (some (if result_ms > 0 then result_ms else 1), st)
        else
          some (none, st)
      | none =>
        if cmpMasterId g m then
          some (some (if result_ms > 0 then result_ms else 1), st)
        else
          some (none, st)
    | none => some (none, st)

/-- The `acquire(index, expire)` = `lockAge(index, expire)`. -/
def acquire (fuel : Nat) (name : String) (st : St) (index : Int)
    (expire : Option Int) : Option (Option Int × St) :=
  lockAge fuel name st index expire false

/-- The `release(index)` = `(await setMasterId(index, null)) === null`. -/
def release (name : String) (st : St) (index : Int) : Bool × St :=
  let (r, st) := setMasterId name st index none
  (decide (r = none), st)

/-- The constructor's name selection and `clear` handling: a falsy
`name` (absent, null, or the empty string) is replaced by `random(8)`;
with `clear` set, `delete global[<name>/ephemeral-id]`. -/
def construct (name : Option String) (clear : Bool) (st : St) :
    String × St :=
  let (nm, st) :=
    match name with
    | some n => if n = "" then nextRand st else (n, st)
    | none => nextRand st
  if clear then
    (nm, { st with glob := upd st.glob (getEphemeralPath nm) none })
  else
    (nm, st)

/-! ## Path lemmas -/

/-- Appending to equal-length distinct prefixes yields distinct strings. -/
theorem append_ne_of_ne (a b s t : String) (hl : a.length = b.length)
    (hne : a ≠ b) : a ++ s ≠ b ++ t := by
  intro h
  have h2 : (a ++ s).data = (b ++ t).data := by rw [h]
  rw [String.data_append, String.data_append] at h2
  exact hne (String.ext (List.append_inj h2 hl).1)

/-- String append is left-cancellative. -/
theorem append_left_cancel {a s t : String} (h : a ++ s = a ++ t) :
    s = t := by
  have h2 : (a ++ s).data = (a ++ t).data := by rw [h]
  rw [String.data_append, String.data_append] at h2
  exact String.ext (List.append_cancel_left h2)

/-- The session-id key never collides with a master-id key of the same
lock name. -/
theorem sessionPath_ne_masterIdPath (name : String) (i : Int) :
    getSessionIdPath name ≠ getMasterIdPath name i := by
  intro h
  unfold getSessionIdPath getMasterIdPath at h
  rw [String.append_assoc] at h
  have h2 := congrArg String.data (append_left_cancel h)
  rw [String.data_append] at h2
  simp at h2

/-- The ephemeral-id key never collides with a master-id key of the same
lock name. -/
theorem ephemeralPath_ne_masterIdPath (name : String) (i : Int) :
    getEphemeralPath name ≠ getMasterIdPath name i := by
  intro h
  unfold getEphemeralPath getMasterIdPath at h
  rw [String.append_assoc] at h
  have h2 := congrArg String.data (append_left_cancel h)
  rw [String.data_append] at h2
  simp at h2

/-- The ephemeral-id key never collides with the session-id key of the
same lock name. -/
theorem ephemeralPath_ne_sessionPath (name : String) :
    getEphemeralPath name ≠ getSessionIdPath name := by
  intro h
  unfold getEphemeralPath getSessionIdPath at h
  have h2 := congrArg String.data (append_left_cancel h)
  simp at h2

/-! ## Claim C3 -/

/-- C3: `cmpMasterId a b` is true iff `a.eid = b.eid`, `a.sid = b.sid`
and `a.sid ≠ null`; in particular two records with null `sid` are never
the same owner. -/
theorem cmpMasterId_iff (a b : MasterId) :
    cmpMasterId a b = true ↔
      a.eid = b.eid ∧ a.sid = b.sid ∧ a.sid ≠ none := by
  unfold cmpMasterId
  constructor
  · intro h
    by_cases h1 : a.eid = b.eid
    · simp only [h1, if_true] at h
      by_cases h2 : a.sid = b.sid
      · simp only [h2, if_true] at h
        simp only [decide_eq_true_eq] at h
        exact ⟨h1, h2, h2 ▸ h.2⟩
      · simp [h2] at h
    · simp [h1] at h
  · rintro ⟨h1, h2, h3⟩
    simp [h1, h2, h2 ▸ h3]

/-! ## Claim C1 -/

/-- C1 (code bug evidence): `release` returns `true` for every state,
every name and every index — also when the storage `set` fails its
verifying read-back — because `setMasterId` collapses both a verified
null-write and a failed write to the same `null` return, which `release`
then compares against `null`. -/
theorem release_always_true (name : String) (st : St) (index : Int) :
    (release name st index).1 = true := by
  unfold release setMasterId storeSet nextRand
  by_cases h : st.failSet st.setIdx <;> simp [h]

/-! ## Projection-preservation helper lemmas -/

/-- The `storeSet` leaves the clock untouched. -/
theorem storeSet_times (st : St) (key : String) (v : Value) :
    (storeSet st key v).2.times = st.times ∧
      (storeSet st key v).2.timeIdx = st.timeIdx := by
  unfold storeSet; split <;> simp

/-- The `getEphemeralId` leaves the clock untouched. -/
theorem getEphemeralId_times (name : String) (st : St) :
    (getEphemeralId name st).2.times = st.times ∧
      (getEphemeralId name st).2.timeIdx = st.timeIdx := by
  unfold getEphemeralId nextRand
  rcases st.glob (getEphemeralPath name) with _ | s
  · simp
  · by_cases h : s = "" <;> simp [h]

/-- The `getSessionId` leaves the clock untouched. -/
theorem getSessionId_times (name : String) (st : St) :
    (getSessionId name st).2.times = st.times ∧
      (getSessionId name st).2.timeIdx = st.timeIdx := by
  unfold getSessionId setSessionId storeGet nextRand storeSet
  rcases st.store (getSessionIdPath name) with _ | v
  · by_cases h : st.failSet (st.setIdx) <;> simp [h]
  · rcases v with s | w
    · by_cases h : s = ""
      · by_cases h2 : st.failSet st.setIdx <;> simp [h, h2]
      · simp [h]
    · by_cases h2 : st.failSet st.setIdx <;> simp [h2]

/-- The `newMasterId` stamps the current clock value. -/
theorem newMasterId_now (name : String) (st : St) :
    (newMasterId name st).1.now = st.times st.timeIdx := by
  unfold newMasterId nextTime
  simp

/-- The `newMasterId` advances the clock index by exactly one. -/
theorem newMasterId_times (name : String) (st : St) :
    (newMasterId name st).2.times = st.times ∧
      (newMasterId name st).2.timeIdx = st.timeIdx + 1 := by
  unfold newMasterId nextTime
  rcases h1 : getEphemeralId name { st with timeIdx := st.timeIdx + 1 }
    with ⟨e, st1⟩
  rcases h2 : getSessionId name st1 with ⟨sid, st2⟩
  have p1 := getEphemeralId_times name { st with timeIdx := st.timeIdx + 1 }
  have p2 := getSessionId_times name st1
  rw [h1] at p1
  rw [h2] at p2
  simp only at p1 p2
  simp [h1, h2, p2.1, p2.2, p1.1, p1.2]

/-- The `setMasterId` returns the value it was given or `null`. -/
theorem setMasterId_fst (name : String) (st : St) (index : Int)
    (v : Option MasterId) :
    (setMasterId name st index v).1 = v ∨
      (setMasterId name st index v).1 = none := by
  unfold setMasterId storeSet nextRand
  by_cases h : st.failSet st.setIdx <;> simp [h]

/-- The `setMasterId` leaves the clock untouched. -/
theorem setMasterId_times (name : String) (st : St) (index : Int)
    (v : Option MasterId) :
    (setMasterId name st index v).2.times = st.times ∧
      (setMasterId name st index v).2.timeIdx = st.timeIdx := by
  unfold setMasterId storeSet nextRand
  by_cases h : st.failSet st.setIdx <;> simp [h]

/-! ## Claim C4 -/

/-- C4: every successful acquisition result is strictly positive — the
success branch returns `result_ms` when strictly positive and `1`
otherwise, so a non-null `lockAge` (hence `acquire`) value is always
`> 0`, at every recursion depth. -/
theorem lockAge_result_pos (fuel : Nat) :
    ∀ (name : String) (st : St) (index : Int) (expire : Option Int)
      (force : Bool) (n : Int) (st' : St),
      lockAge fuel name st index expire force = some (some n, st') →
        0 < n := by
  induction fuel with
  | zero =>
    intro name st index expire force n st' h
    simp [lockAge] at h
  | succ fuel ih =>
    intro name st index expire force n st' h
    rw [lockAge] at h
    rcases hg : getMasterId name st index force with ⟨gid, st1⟩
    rw [hg] at h
    dsimp only at h
    cases gid with
    | none => simp at h
    | some g =>
      dsimp only at h
      rcases hm : newMasterId name st1 with ⟨m, st2⟩
      rw [hm] at h
      dsimp only at h
      cases expire with
      | none =>
        by_cases hc : cmpMasterId g m
        · simp only [hc, if_true, Option.some.injEq, Prod.mk.injEq] at h
          rcases h with ⟨h1, _⟩
          rw [← h1]
          by_cases hp : m.now - g.now > 0 <;> simp [hp]
        · simp [hc] at h
      | some e =>
        by_cases he : |m.now - g.now| > e
        · simp only [he, if_true] at h
          exact ih name st2 index (some e) true n st' h
        · simp only [he, if_false] at h
          by_cases hc : cmpMasterId g m
          · simp only [hc, if_true, Option.some.injEq, Prod.mk.injEq] at h
            rcases h with ⟨h1, _⟩
            rw [← h1]
            by_cases hp : m.now - g.now > 0 <;> simp [hp]
          · simp [hc] at h

/-- A concrete world: empty master slot, session id `"s"` already in
durable storage, ephemeral id `"e"` in ambient state, constant clock,
constant random stream, storage that never fails. -/
def st0 : St where
  store := fun k => if k = "L/session-id" then some (Value.str "s") else none
  glob := fun k => if k = "L/ephemeral-id" then some "e" else none
  times := fun _ => 0
  timeIdx := 0
  rands := fun _ => "r"
  randIdx := 0
  failSet := fun _ => false
  setIdx := 0

/-- The world after `lockAge 1 "L" st0 0 none false`. -/
def st0after : St :=
  { st0 with
      store := upd st0.store (getMasterIdPath "L" 0)
        (some (Value.wrapped ⟨some ⟨0, "e", some "s"⟩, "r"⟩)),
      timeIdx := 2, randIdx := 1, setIdx := 1 }

/-- C4 witness: a concrete acquisition that returns `1`, which is
strictly positive. -/
theorem lockAge_result_pos_witness :
    lockAge 1 "L" st0 0 none false = some (some 1, st0after) ∧
      (0 : Int) < 1 :=
  ⟨rfl, lockAge_result_pos 1 "L" st0 0 none false 1 st0after rfl⟩

/-! ## Claim C2: counterexample -/

/-- C2 counterexample: with the supplied expire value `-1` (on a world
whose clock is constant and whose storage never fails), `lockAge` is not
done after one forced retry — fuel `2` (the initial call plus one forced
recursive call) is exhausted, and so is any larger fuel, e.g. `10`:
every pass finds `|result_ms| = 0 > -1` and recurses again, so the
original recursion does not terminate. -/
theorem lockAge_unbounded_retry_cex :
    lockAge 2 "L" st0 0 (some (-1)) false = none ∧
      lockAge 10 "L" st0 0 (some (-1)) false = none :=
  ⟨rfl, rfl⟩

/-! ## Claim C2: amended bounded-retry theorem -/

/-- The `mintMasterId` leaves the clock function untouched and consumes
exactly one timestamp. -/
theorem mintMasterId_times (name : String) (st : St) (index : Int) :
    (mintMasterId name st index).2.times = st.times ∧
      (mintMasterId name st index).2.timeIdx = st.timeIdx + 1 := by
  unfold mintMasterId
  rcases hn : newMasterId name st with ⟨m, st1⟩
  have p1 := newMasterId_times name st
  rw [hn] at p1
  simp only at p1
  have p2 := setMasterId_times name st1 index (some m)
  dsimp only
  exact ⟨p2.1.trans p1.1, p2.2.trans p1.2⟩

/-- The `mintMasterId` returns either `null` (failed write) or the record it
minted, whose timestamp is the current clock value. -/
theorem mintMasterId_fst (name : String) (st : St) (index : Int) :
    (mintMasterId name st index).1 = none ∨
      ∃ m : MasterId, (mintMasterId name st index).1 = some m ∧
        m.now = st.times st.timeIdx := by
  unfold mintMasterId
  rcases hn : newMasterId name st with ⟨m, st1⟩
  have hnow := newMasterId_now name st
  rw [hn] at hnow
  simp only at hnow
  dsimp only
  rcases setMasterId_fst name st1 index (some m) with h | h
  · exact Or.inr ⟨m, h, hnow⟩
  · exact Or.inl h

/-- The `getMasterId` never changes the clock function. -/
theorem getMasterId_times_fn (name : String) (st : St) (index : Int)
    (force : Bool) : (getMasterId name st index force).2.times = st.times := by
  unfold getMasterId storeGet
  rcases st.store (getMasterIdPath name index) with _ | v
  · exact (mintMasterId_times name st index).1
  · rcases v with s | w
    · exact (mintMasterId_times name st index).1
    · dsimp only
      split
      · rfl
      · exact (mintMasterId_times name st index).1

/-- Forced `getMasterId` always takes the mint path: it returns either
`null` or a freshly stamped record, consuming exactly one timestamp. -/
theorem getMasterId_force_spec (name : String) (st : St) (index : Int) :
    ((getMasterId name st index true).1 = none ∨
      ∃ m : MasterId, (getMasterId name st index true).1 = some m ∧
        m.now = st.times st.timeIdx) ∧
      (getMasterId name st index true).2.times = st.times ∧
      (getMasterId name st index true).2.timeIdx = st.timeIdx + 1 := by
  unfold getMasterId storeGet
  rcases st.store (getMasterIdPath name index) with _ | v
  · exact ⟨mintMasterId_fst name st index, mintMasterId_times name st index⟩
  · rcases v with s | w
    · exact ⟨mintMasterId_fst name st index, mintMasterId_times name st index⟩
    · dsimp only
      have : ¬(w.value.isSome ∧ true = false) := by simp
      rw [if_neg this]
      exact ⟨mintMasterId_fst name st index, mintMasterId_times name st index⟩

/-- C2 (amended): `lockAge` performs at most one forced retry — fuel `2`
(the initial call plus one forced recursive call) suffices — provided
the supplied expiration threshold, when present, is non-negative and no
two consecutively minted timestamps differ by more than the threshold.
(The original claim, without this proviso, fails: a negative threshold,
or a clock jump exceeding the threshold on the forced pass, makes the
recursion repeat, see the counterexample.) -/
theorem lockAge_at_most_one_forced_retry (name : String) (st : St)
    (index : Int) (expire : Option Int)
    (h : expire = none ∨ ∃ e : Int, expire = some e ∧ 0 ≤ e ∧
      ∀ k, |st.times (k + 1) - st.times k| ≤ e) :
    (lockAge 2 name st index expire false).isSome = true := by
  have inner : ∀ (st2 : St) (e : Int),
      (∀ k, |st2.times (k + 1) - st2.times k| ≤ e) →
      (lockAge 1 name st2 index (some e) true).isSome = true := by
    intro st2 e hgap
    rw [lockAge]
    rcases hg : getMasterId name st2 index true with ⟨gid, st3⟩
    have spec := getMasterId_force_spec name st2 index
    rw [hg] at spec
    simp only at spec
    obtain ⟨hval, htimes, hidx⟩ := spec
    dsimp only
    cases gid with
    | none => simp
    | some m2 =>
      dsimp only
      rcases hm : newMasterId name st3 with ⟨m3, st4⟩
      have hnow3 := newMasterId_now name st3
      rw [hm] at hnow3
      simp only at hnow3
      dsimp only
      rcases hval with h0 | ⟨m2', hm2', hnow2⟩
      · exact absurd h0 (by simp)
      · have hm2eq : m2 = m2' := by
          have := hm2'
          simp only [Option.some.injEq] at this
          exact this
        subst hm2eq
        have hbound : ¬(|m3.now - m2.now| > e) := by
          rw [hnow3, hnow2, htimes, hidx]
          exact not_lt.mpr (hgap st2.timeIdx)
        rw [if_neg hbound]
        split <;> simp
  rw [show (2 : Nat) = 1 + 1 from rfl, lockAge]
  rcases hg : getMasterId name st index false with ⟨gid, st1⟩
  have ht1 := getMasterId_times_fn name st index false
  rw [hg] at ht1
  simp only at ht1
  dsimp only
  cases gid with
  | none => simp
  | some g =>
    dsimp only
    rcases hm : newMasterId name st1 with ⟨m, st2⟩
    have ht2 := newMasterId_times name st1
    rw [hm] at ht2
    simp only at ht2
    dsimp only
    rcases h with hnone | ⟨e, hexp, _, hgap⟩
    · subst hnone
      dsimp only
      split <;> simp
    · subst hexp
      dsimp only
      by_cases hgt : |m.now - g.now| > e
      · rw [if_pos hgt]
        apply inner st2 e
        intro k
        rw [ht2.1, ht1]
        exact hgap k
      · rw [if_neg hgt]
        split <;> simp

/-- C2 witness: on a concrete world with a constant clock and the
non-negative threshold `0`, fuel `2` suffices. -/
theorem lockAge_at_most_one_forced_retry_witness :
    (lockAge 2 "L" st0 0 (some 0) false).isSome = true :=
  lockAge_at_most_one_forced_retry "L" st0 0 (some 0)
    (Or.inr ⟨0, rfl, le_refl 0, fun k => by simp [st0]⟩)

/-! ## Identity-stability lemmas -/

/-- After `getEphemeralId`, the ambient state holds exactly the returned
ephemeral id. -/
theorem getEphemeralId_glob (name : String) (st : St) :
    (getEphemeralId name st).2.glob (getEphemeralPath name) =
      some (getEphemeralId name st).1 := by
  unfold getEphemeralId nextRand
  rcases h : st.glob (getEphemeralPath name) with _ | s
  · simp [upd]
  · by_cases he : s = "" <;> simp [he, upd, h]

/-- The ephemeral id returned is never the empty string (the ambient
branch requires a non-empty string; the mint branch uses `random(8)`). -/
theorem getEphemeralId_ne_empty (name : String) (st : St)
    (hr : ∀ k, st.rands k ≠ "") : (getEphemeralId name st).1 ≠ "" := by
  unfold getEphemeralId nextRand
  rcases h : st.glob (getEphemeralPath name) with _ | s
  · simpa using hr st.randIdx
  · by_cases he : s = ""
    · simpa [he] using hr st.randIdx
    · simp [he]

/-- The `getEphemeralId` touches neither the store nor the other streams. -/
theorem getEphemeralId_state (name : String) (st : St) :
    (getEphemeralId name st).2.store = st.store ∧
      (getEphemeralId name st).2.rands = st.rands ∧
      (getEphemeralId name st).2.failSet = st.failSet ∧
      (getEphemeralId name st).2.setIdx = st.setIdx := by
  unfold getEphemeralId nextRand
  rcases h : st.glob (getEphemeralPath name) with _ | s
  · simp
  · by_cases he : s = "" <;> simp [he]

/-- When the storage never fails and random tokens are non-empty,
`getSessionId` yields a non-null, non-empty session id, leaves it in
durable storage at the session key, and changes no other key. -/
theorem getSessionId_spec (name : String) (st : St)
    (hf : ∀ k, st.failSet k = false) (hr : ∀ k, st.rands k ≠ "") :
    ∃ s : String, (getSessionId name st).1 = some s ∧ s ≠ "" ∧
      (getSessionId name st).2.store (getSessionIdPath name) =
        some (Value.str s) ∧
      (∀ k, k ≠ getSessionIdPath name →
        (getSessionId name st).2.store k = st.store k) ∧
      (getSessionId name st).2.glob = st.glob ∧
      (getSessionId name st).2.rands = st.rands ∧
      (getSessionId name st).2.failSet = st.failSet ∧
      (getSessionId name st).2.times = st.times ∧
      (getSessionId name st).2.timeIdx = st.timeIdx := by
  unfold getSessionId setSessionId storeGet storeSet nextRand
  rcases h : st.store (getSessionIdPath name) with _ | v
  · refine ⟨st.rands st.randIdx, ?_⟩
    simp only [hf st.setIdx]
    refine ⟨by simp, hr st.randIdx, by simp [upd], ?_, by simp, by simp,
      by simp, by simp, by simp⟩
    intro k hk
    simp [upd, hk]
  · rcases v with s | w
    · by_cases he : s = ""
      · refine ⟨st.rands st.randIdx, ?_⟩
        simp only [he, hf st.setIdx]
        refine ⟨by simp, hr st.randIdx, by simp [upd], ?_, by simp,
          by simp, by simp, by simp, by simp⟩
        intro k hk
        simp [upd, hk]
      · exact ⟨s, by simp [he], he, by simp [he, h], fun k _ => by simp [he],
          by simp [he], by simp [he], by simp [he], by simp [he],
          by simp [he]⟩
    · refine ⟨st.rands st.randIdx, ?_⟩
      simp only [hf st.setIdx]
      refine ⟨by simp, hr st.randIdx, by simp [upd], ?_, by simp, by simp,
        by simp, by simp, by simp⟩
      intro k hk
      simp [upd, hk]

/-- Full characterization of `newMasterId` under a never-failing storage
and non-empty random tokens: it mints a record stamped with the current
clock, carrying a non-empty ephemeral id (left in ambient state) and a
non-null, non-empty session id (left in durable storage); no other
storage key changes. -/
theorem newMasterId_spec (name : String) (st : St)
    (hf : ∀ k, st.failSet k = false) (hr : ∀ k, st.rands k ≠ "") :
    ∃ s : String, (newMasterId name st).1.sid = some s ∧ s ≠ "" ∧
      (newMasterId name st).1.eid ≠ "" ∧
      (newMasterId name st).1.now = st.times st.timeIdx ∧
      (newMasterId name st).2.glob (getEphemeralPath name) =
        some (newMasterId name st).1.eid ∧
      (newMasterId name st).2.store (getSessionIdPath name) =
        some (Value.str s) ∧
      (∀ k, k ≠ getSessionIdPath name →
        (newMasterId name st).2.store k = st.store k) ∧
      (newMasterId name st).2.rands = st.rands ∧
      (newMasterId name st).2.failSet = st.failSet ∧
      (newMasterId name st).2.times = st.times ∧
      (newMasterId name st).2.timeIdx = st.timeIdx + 1 := by
  unfold newMasterId nextTime
  dsimp only
  rcases h1 : getEphemeralId name { st with timeIdx := st.timeIdx + 1 }
    with ⟨E, st1⟩
  have gA := getEphemeralId_glob name { st with timeIdx := st.timeIdx + 1 }
  have nA := getEphemeralId_ne_empty name
    { st with timeIdx := st.timeIdx + 1 } (fun k => hr k)
  have sA := getEphemeralId_state name { st with timeIdx := st.timeIdx + 1 }
  have tA := getEphemeralId_times name { st with timeIdx := st.timeIdx + 1 }
  rw [h1] at gA nA sA tA
  simp only at gA nA sA tA
  rcases h2 : getSessionId name st1 with ⟨sid, st2⟩
  have hf1 : ∀ k, st1.failSet k = false := by rw [sA.2.2.1]; exact hf
  have hr1 : ∀ k, st1.rands k ≠ "" := by rw [sA.2.1]; exact hr
  obtain ⟨s, b1, b2, b3, b4, b5, b6, b7, b8, b9⟩ :=
    getSessionId_spec name st1 hf1 hr1
  rw [h2] at b1 b3 b4 b5 b6 b7 b8 b9
  simp only at b1 b3 b4 b5 b6 b7 b8 b9
  dsimp only
  refine ⟨s, b1, b2, nA, rfl, ?_, b3, ?_, ?_, ?_, ?_, ?_⟩
  · rw [b5]; exact gA
  · intro k hk
    rw [b4 k hk, sA.1]
  · rw [b6, sA.2.1]
  · rw [b7, sA.2.2.1]
  · rw [b8, tA.1]
  · rw [b9, tA.2]

/-- When both identity components are already in place (non-empty
ephemeral id in ambient state, non-empty session string in durable
storage), `newMasterId` is a pure clock read: it returns exactly those
components and only advances the clock. -/
theorem newMasterId_stable (name : String) (st : St) (E s : String)
    (hE : st.glob (getEphemeralPath name) = some E) (hEne : E ≠ "")
    (hs : st.store (getSessionIdPath name) = some (Value.str s))
    (hsne : s ≠ "") :
    newMasterId name st =
      (⟨st.times st.timeIdx, E, some s⟩,
        { st with timeIdx := st.timeIdx + 1 }) := by
  unfold newMasterId nextTime getEphemeralId getSessionId storeGet
  simp [hE, hEne, hs, hsne]

/-- The success equation for `setMasterId`: when the current `set` call
verifies, it returns its argument and writes the wrapped record (with
the next random token as nonce) at the master-id key. -/
theorem setMasterId_success (name : String) (st : St) (index : Int)
    (v : Option MasterId) (h : st.failSet st.setIdx = false) :
    setMasterId name st index v =
      (v, { st with
              store := upd st.store (getMasterIdPath name index)
                (some (Value.wrapped ⟨v, st.rands st.randIdx⟩)),
              randIdx := st.randIdx + 1, setIdx := st.setIdx + 1 }) := by
  unfold setMasterId storeSet nextRand
  simp [h]

/-- The `getSessionId` never changes the failure stream. -/
theorem getSessionId_failSet (name : String) (st : St) :
    (getSessionId name st).2.failSet = st.failSet := by
  unfold getSessionId setSessionId storeGet storeSet nextRand
  rcases h : st.store (getSessionIdPath name) with _ | v
  · by_cases hx : st.failSet st.setIdx <;> simp [hx]
  · rcases v with s | w
    · by_cases he : s = ""
      · by_cases hx : st.failSet st.setIdx <;> simp [he, hx]
      · simp [he]
    · by_cases hx : st.failSet st.setIdx <;> simp [hx]

/-- The `newMasterId` never changes the failure stream. -/
theorem newMasterId_failSet (name : String) (st : St) :
    (newMasterId name st).2.failSet = st.failSet := by
  unfold newMasterId nextTime
  dsimp only
  rcases h1 : getEphemeralId name { st with timeIdx := st.timeIdx + 1 }
    with ⟨E, st1⟩
  have a := getEphemeralId_state name { st with timeIdx := st.timeIdx + 1 }
  rw [h1] at a
  simp only at a
  rcases h2 : getSessionId name st1 with ⟨sid, st2⟩
  have b := getSessionId_failSet name st1
  rw [h2] at b
  simp only at b
  dsimp only
  rw [b, a.2.2.1]

/-- A failing `set` makes `setMasterId` return `null`. -/
theorem setMasterId_fail_none (name : String) (st : St) (index : Int)
    (v : Option MasterId) (h : st.failSet st.setIdx = true) :
    (setMasterId name st index v).1 = none := by
  unfold setMasterId storeSet nextRand
  simp [h]

/-- When every `set` fails verification, `mintMasterId` yields `null`. -/
theorem mintMasterId_fail (name : String) (st : St) (index : Int)
    (hfail : ∀ k, st.failSet k = true) :
    (mintMasterId name st index).1 = none := by
  unfold mintMasterId
  rcases hn : newMasterId name st with ⟨m, st1⟩
  have b := newMasterId_failSet name st
  rw [hn] at b
  simp only at b
  dsimp only
  exact setMasterId_fail_none name st1 index (some m) (by rw [b]; exact hfail _)

/-- The `getSessionId` writes at most the session key. -/
theorem getSessionId_store_frame (name : String) (st : St) :
    ∀ k, k ≠ getSessionIdPath name →
      (getSessionId name st).2.store k = st.store k := by
  intro k hk
  unfold getSessionId setSessionId storeGet storeSet nextRand
  rcases h : st.store (getSessionIdPath name) with _ | v
  · by_cases hx : st.failSet st.setIdx <;> simp [hx, upd, hk]
  · rcases v with s | w
    · by_cases he : s = ""
      · by_cases hx : st.failSet st.setIdx <;> simp [he, hx, upd, hk]
      · simp [he]
    · by_cases hx : st.failSet st.setIdx <;> simp [hx, upd, hk]

/-- The `newMasterId` writes at most the session key of the store. -/
theorem newMasterId_store_frame (name : String) (st : St) :
    ∀ k, k ≠ getSessionIdPath name →
      (newMasterId name st).2.store k = st.store k := by
  intro k hk
  unfold newMasterId nextTime
  dsimp only
  rcases h1 : getEphemeralId name { st with timeIdx := st.timeIdx + 1 }
    with ⟨E, st1⟩
  have a := getEphemeralId_state name { st with timeIdx := st.timeIdx + 1 }
  rw [h1] at a
  simp only at a
  rcases h2 : getSessionId name st1 with ⟨sid, st2⟩
  have b := getSessionId_store_frame name st1 k hk
  rw [h2] at b
  simp only at b
  dsimp only
  rw [b, a.1]

/-! ## Claim C5 -/

/-- C5: on an empty slot, when the storage write establishing the fresh
owner record fails its verifying read-back, `lockAge` (hence `acquire`)
returns `null` — a normal return value, never an exception (the model is
total). -/
theorem acquire_null_on_failed_write (fuel : Nat) (name : String) (st : St)
    (index : Int) (expire : Option Int)
    (hempty : st.store (getMasterIdPath name index) = none)
    (hfail : ∀ k, st.failSet k = true) :
    ∃ st', lockAge (fuel + 1) name st index expire false =
      some (none, st') := by
  rw [lockAge]
  rcases hg : getMasterId name st index false with ⟨gid, st1⟩
  have hgid : gid = none := by
    have hm : getMasterId name st index false = mintMasterId name st index := by
      unfold getMasterId storeGet
      rw [hempty]
    rw [hm] at hg
    have hnone := mintMasterId_fail name st index hfail
    rw [hg] at hnone
    simpa using hnone
  subst hgid
  exact ⟨st1, rfl⟩

/-- A concrete world whose storage fails every write verification. -/
def stFail : St := { st0 with failSet := fun _ => true }

/-- C5 witness: concrete empty slot, all writes fail, `lockAge` returns
`null`. -/
theorem acquire_null_on_failed_write_witness :
    stFail.store (getMasterIdPath "L" 0) = none ∧
      ∃ st', lockAge 1 "L" stFail 0 none false = some (none, st') :=
  ⟨rfl, acquire_null_on_failed_write 0 "L" stFail 0 none rfl (fun _ => rfl)⟩

/-! ## Claim C7 -/

/-- C7: when a stored owner record exists, the expiration check does not
trigger, and the stored owner does not compare equal to the freshly
minted candidate, `lockAge` (hence `acquire`) returns `null` and the
master-id slot is left exactly as it was (only the session key may have
been lazily initialized by minting the candidate). -/
theorem lockAge_mismatch_null_frame (fuel : Nat) (name : String) (st : St)
    (index : Int) (expire : Option Int) (g : MasterId) (w : MasterIdWrapped)
    (hstored : st.store (getMasterIdPath name index) =
      some (Value.wrapped w))
    (hw : w.value = some g)
    (hexp : expire = none ∨ ∃ e : Int, expire = some e ∧
      ¬(|(newMasterId name st).1.now - g.now| > e))
    (hcmp : cmpMasterId g (newMasterId name st).1 = false) :
    lockAge (fuel + 1) name st index expire false =
      some (none, (newMasterId name st).2) ∧
      (newMasterId name st).2.store (getMasterIdPath name index) =
        st.store (getMasterIdPath name index) := by
  have hframe := newMasterId_store_frame name st (getMasterIdPath name index)
    (Ne.symm (sessionPath_ne_masterIdPath name index))
  refine ⟨?_, hframe⟩
  rw [lockAge]
  have hgm : getMasterId name st index false = (some g, st) := by
    unfold getMasterId storeGet
    rw [hstored]
    dsimp only
    rw [if_pos ⟨by simp [hw], rfl⟩, hw]
  rw [hgm]
  dsimp only
  rcases hn : newMasterId name st with ⟨m, st2⟩
  rw [hn] at hcmp hexp
  simp only at hcmp hexp
  dsimp only
  rcases hexp with h0 | ⟨e, he, hne⟩
  · subst h0
    simp [hcmp]
  · subst he
    dsimp only
    rw [if_neg hne]
    simp [hcmp]

/-- A stored owner record minted by a different caller (different
ephemeral id than the ambient one). -/
def gOwn : MasterId := ⟨0, "x", some "y"⟩

/-- A concrete world whose master slot is owned by `gOwn` while the
ambient identity is `"e"`/`"s"`. -/
def stOwn : St where
  store := fun k =>
    if k = "L/master-id/0" then some (Value.wrapped ⟨some gOwn, "n"⟩)
    else if k = "L/session-id" then some (Value.str "s") else none
  glob := fun k => if k = "L/ephemeral-id" then some "e" else none
  times := fun _ => 0
  timeIdx := 0
  rands := fun _ => "r"
  randIdx := 0
  failSet := fun _ => false
  setIdx := 0

/-- C7 witness: the concrete mismatching acquisition returns `null` and
leaves the stored owner record untouched. -/
theorem lockAge_mismatch_null_frame_witness :
    stOwn.store (getMasterIdPath "L" 0) =
      some (Value.wrapped ⟨some gOwn, "n"⟩) ∧
    cmpMasterId gOwn (newMasterId "L" stOwn).1 = false ∧
    lockAge 1 "L" stOwn 0 none false =
      some (none, (newMasterId "L" stOwn).2) ∧
    (newMasterId "L" stOwn).2.store (getMasterIdPath "L" 0) =
      stOwn.store (getMasterIdPath "L" 0) :=
  ⟨rfl, rfl,
    (lockAge_mismatch_null_frame 0 "L" stOwn 0 none gOwn
      ⟨some gOwn, "n"⟩ rfl rfl (Or.inl rfl) rfl).1,
    (lockAge_mismatch_null_frame 0 "L" stOwn 0 none gOwn
      ⟨some gOwn, "n"⟩ rfl rfl (Or.inl rfl) rfl).2⟩

/-- Records that agree on `eid` and on a non-null `sid` compare equal. -/
theorem cmpMasterId_same (a b : MasterId) (he : a.eid = b.eid)
    (hs : a.sid = b.sid) (hn : a.sid ≠ none) : cmpMasterId a b = true := by
  unfold cmpMasterId
  simp [he, hs, hs ▸ hn]

/-- Success-path characterization of `mintMasterId`: with a never-failing
storage and non-empty random tokens, minting returns the fresh record,
stores it (wrapped) at the master-id key, stabilizes both identity
components, and touches no other key. -/
theorem mintMasterId_success_spec (name : String) (st : St) (index : Int)
    (hf : ∀ k, st.failSet k = false) (hr : ∀ k, st.rands k ≠ "") :
    ∃ (m : MasterId) (st' : St) (s nc : String),
      mintMasterId name st index = (some m, st') ∧
      m.now = st.times st.timeIdx ∧ m.eid ≠ "" ∧
      m.sid = some s ∧ s ≠ "" ∧
      st'.glob (getEphemeralPath name) = some m.eid ∧
      st'.store (getSessionIdPath name) = some (Value.str s) ∧
      st'.store (getMasterIdPath name index) =
        some (Value.wrapped ⟨some m, nc⟩) ∧
      (∀ k, k ≠ getSessionIdPath name → k ≠ getMasterIdPath name index →
        st'.store k = st.store k) ∧
      st'.times = st.times ∧ st'.timeIdx = st.timeIdx + 1 ∧
      st'.rands = st.rands ∧ st'.failSet = st.failSet := by
  unfold mintMasterId
  rcases hn : newMasterId name st with ⟨m, st1⟩
  obtain ⟨s, d1, d2, d3, d4, d5, d6, d7, d8, d9, d10, d11⟩ :=
    newMasterId_spec name st hf hr
  rw [hn] at d1 d3 d4 d5 d6 d7 d8 d9 d10 d11
  simp only at d1 d3 d4 d5 d6 d7 d8 d9 d10 d11
  have hfs : st1.failSet st1.setIdx = false := by
    rw [d9]; exact hf _
  dsimp only
  rw [setMasterId_success name st1 index (some m) hfs]
  refine ⟨m, _, s, st1.rands st1.randIdx, rfl, d4, d3, d1, d2, ?_, ?_, ?_,
    ?_, ?_, ?_, ?_, ?_⟩
  · exact d5
  · show upd st1.store (getMasterIdPath name index) _ (getSessionIdPath name)
      = _
    simp only [upd, if_neg (sessionPath_ne_masterIdPath name index)]
    exact d6
  · simp [upd]
  · intro k hk1 hk2
    show upd st1.store (getMasterIdPath name index) _ k = _
    simp only [upd, if_neg hk2]
    exact d7 k hk1
  · exact d10
  · exact d11
  · exact d8
  · exact d9

/-- The `getSessionId` never changes the random stream. -/
theorem getSessionId_rands (name : String) (st : St) :
    (getSessionId name st).2.rands = st.rands := by
  unfold getSessionId setSessionId storeGet storeSet nextRand
  rcases h : st.store (getSessionIdPath name) with _ | v
  · by_cases hx : st.failSet st.setIdx <;> simp [hx]
  · rcases v with s | w
    · by_cases he : s = ""
      · by_cases hx : st.failSet st.setIdx <;> simp [he, hx]
      · simp [he]
    · by_cases hx : st.failSet st.setIdx <;> simp [hx]

/-- The `newMasterId` never changes the random stream. -/
theorem newMasterId_rands (name : String) (st : St) :
    (newMasterId name st).2.rands = st.rands := by
  unfold newMasterId nextTime
  dsimp only
  rcases h1 : getEphemeralId name { st with timeIdx := st.timeIdx + 1 }
    with ⟨E, st1⟩
  have a := getEphemeralId_state name { st with timeIdx := st.timeIdx + 1 }
  rw [h1] at a
  simp only at a
  rcases h2 : getSessionId name st1 with ⟨sid, st2⟩
  have b := getSessionId_rands name st1
  rw [h2] at b
  simp only at b
  dsimp only
  rw [b, a.2.1]

/-- Forced `getMasterId` always takes the mint path. -/
theorem getMasterId_force_mint (name : String) (st : St) (index : Int) :
    getMasterId name st index true = mintMasterId name st index := by
  unfold getMasterId storeGet
  rcases hsl : st.store (getMasterIdPath name index) with _ | v
  · rfl
  · rcases v with s | w
    · rfl
    · dsimp only
      rw [if_neg (by simp)]

/-- A `lockAge` pass that takes the mint path succeeds: with a
never-failing storage, non-empty random tokens, and (when an expiration
threshold is given) consecutive timestamps within the threshold, the
call returns a strictly positive duration and leaves a fresh wrapped
record at the master-id slot. -/
theorem lockAge_mint_pass (fuel : Nat) (name : String) (st : St)
    (index : Int) (expire : Option Int) (force : Bool)
    (hf : ∀ k, st.failSet k = false) (hr : ∀ k, st.rands k ≠ "")
    (hmintpath : getMasterId name st index force = mintMasterId name st index)
    (hexp : expire = none ∨ ∃ e : Int, expire = some e ∧
      ¬(|st.times (st.timeIdx + 1) - st.times st.timeIdx| > e)) :
    ∃ n st'', lockAge (fuel + 1) name st index expire force =
        some (some n, st'') ∧ 0 < n ∧
      ∃ (m : MasterId) (nc : String),
        st''.store (getMasterIdPath name index) =
          some (Value.wrapped ⟨some m, nc⟩) := by
  rw [lockAge, hmintpath]
  obtain ⟨m, st', s, nc, e1, e2, e3, e4, e5, e6, e7, e8, e9, e10, e11,
    e12, e13⟩ := mintMasterId_success_spec name st index hf hr
  rw [e1]
  dsimp only
  rw [newMasterId_stable name st' m.eid s e6 e3 e7 e5]
  dsimp only
  have hcmp : ∀ t : Int, cmpMasterId m ⟨t, m.eid, some s⟩ = true := fun t =>
    cmpMasterId_same _ _ rfl (by rw [e4]) (by rw [e4]; simp)
  rcases hexp with h0 | ⟨e, he, hne⟩
  · subst h0
    dsimp only
    refine ⟨if st'.times st'.timeIdx - m.now > 0
        then st'.times st'.timeIdx - m.now else 1,
      { st' with timeIdx := st'.timeIdx + 1 }, ?_, ?_, m, nc, e8⟩
    · simp [hcmp]
    · split <;> omega
  · subst he
    dsimp only
    have hne' : ¬(|st'.times st'.timeIdx - m.now| > e) := by
      rw [e10, e11, e2]
      exact hne
    rw [if_neg hne']
    refine ⟨if st'.times st'.timeIdx - m.now > 0
        then st'.times st'.timeIdx - m.now else 1,
      { st' with timeIdx := st'.timeIdx + 1 }, ?_, ?_, m, nc, e8⟩
    · simp [hcmp]
    · split <;> omega

/-! ## Claim C9 -/

/-- C9: `release(index)` immediately followed by `acquire(index)` with
the same identity yields a strictly positive duration, never `null` —
the released slot wraps a null value, is treated as unowned, and a fresh
record for the caller is minted (one pass, no forced retry).  The
hypotheses model the default in-memory storage (whose verifying writes
never fail) and `random(8)` tokens (never empty). -/
theorem release_then_acquire_pos (name : String) (st : St) (index : Int)
    (hf : ∀ k, st.failSet k = false) (hr : ∀ k, st.rands k ≠ "") :
    ∃ n st'', acquire 1 name (release name st index).2 index none =
        some (some n, st'') ∧ 0 < n := by
  have hrel := setMasterId_success name st index none (hf st.setIdx)
  have h2 : (release name st index).2 =
      { st with
          store := upd st.store (getMasterIdPath name index)
            (some (Value.wrapped ⟨none, st.rands st.randIdx⟩)),
          randIdx := st.randIdx + 1, setIdx := st.setIdx + 1 } := by
    unfold release
    rw [hrel]
  rw [h2]
  unfold acquire
  have hmintpath : getMasterId name
      { st with
          store := upd st.store (getMasterIdPath name index)
            (some (Value.wrapped ⟨none, st.rands st.randIdx⟩)),
          randIdx := st.randIdx + 1, setIdx := st.setIdx + 1 }
      index false =
      mintMasterId name
        { st with
            store := upd st.store (getMasterIdPath name index)
              (some (Value.wrapped ⟨none, st.rands st.randIdx⟩)),
            randIdx := st.randIdx + 1, setIdx := st.setIdx + 1 } index := by
    unfold getMasterId storeGet
    have hslot : upd st.store (getMasterIdPath name index)
        (some (Value.wrapped ⟨none, st.rands st.randIdx⟩))
        (getMasterIdPath name index) =
        some (Value.wrapped ⟨none, st.rands st.randIdx⟩) := by
      simp [upd]
    dsimp only
    rw [hslot]
    dsimp only
    rw [if_neg (by simp)]
  obtain ⟨n, st'', hrun, hpos, _⟩ :=
    lockAge_mint_pass 0 name
      { st with
          store := upd st.store (getMasterIdPath name index)
            (some (Value.wrapped ⟨none, st.rands st.randIdx⟩)),
          randIdx := st.randIdx + 1, setIdx := st.setIdx + 1 }
      index none false
      (fun k => hf k) (fun k => hr k) hmintpath (Or.inl rfl)
  exact ⟨n, st'', hrun, hpos⟩

/-- C9 witness: the concrete round-trip on `st0`. -/
theorem release_then_acquire_pos_witness :
    ∃ n st'', acquire 1 "L" (release "L" st0 0).2 0 none =
        some (some n, st'') ∧ 0 < n :=
  release_then_acquire_pos "L" st0 0 (fun _ => rfl)
    (fun _ => by show ("r" : String) ≠ ""; decide)

/-! ## Claim C6 -/

/-- C6: when an expiration threshold `e` is supplied and the stored
owner is stale (the candidate timestamp differs from the stored one by
more than `e`), `lockAge` discards the stale owner, re-mints a fresh
record on a forced retry, and succeeds with a strictly positive number
rather than returning `null`; the slot afterwards holds a freshly minted
wrapped record.  Hypotheses: never-failing storage, non-empty random
tokens, and the forced pass's two consecutive timestamps within `e`. -/
theorem lockAge_expire_steals (name : String) (st : St) (index : Int)
    (e : Int) (g : MasterId) (w : MasterIdWrapped)
    (hstored : st.store (getMasterIdPath name index) =
      some (Value.wrapped w))
    (hw : w.value = some g)
    (hf : ∀ k, st.failSet k = false) (hr : ∀ k, st.rands k ≠ "")
    (hstale : |(newMasterId name st).1.now - g.now| > e)
    (hgap : ¬(|st.times (st.timeIdx + 1 + 1) - st.times (st.timeIdx + 1)|
      > e)) :
    ∃ n st'', lockAge 2 name st index (some e) false =
        some (some n, st'') ∧ 0 < n ∧
      ∃ (m : MasterId) (nc : String),
        st''.store (getMasterIdPath name index) =
          some (Value.wrapped ⟨some m, nc⟩) := by
  rw [show (2 : Nat) = 1 + 1 from rfl, lockAge]
  have hgm : getMasterId name st index false = (some g, st) := by
    unfold getMasterId storeGet
    rw [hstored]
    dsimp only
    rw [if_pos ⟨by simp [hw], rfl⟩, hw]
  rw [hgm]
  dsimp only
  rcases hn : newMasterId name st with ⟨m1, st2⟩
  rw [hn] at hstale
  simp only at hstale
  dsimp only
  rw [if_pos hstale]
  have hfs := newMasterId_failSet name st
  have hrs := newMasterId_rands name st
  have hts := newMasterId_times name st
  rw [hn] at hfs hrs hts
  simp only at hfs hrs hts
  have hf2 : ∀ k, st2.failSet k = false := by rw [hfs]; exact hf
  have hr2 : ∀ k, st2.rands k ≠ "" := by rw [hrs]; exact hr
  have hexp : (some e : Option Int) = none ∨ ∃ e' : Int,
      (some e : Option Int) = some e' ∧
      ¬(|st2.times (st2.timeIdx + 1) - st2.times st2.timeIdx| > e') := by
    right
    exact ⟨e, rfl, by rw [hts.1, hts.2]; exact hgap⟩
  exact lockAge_mint_pass 0 name st2 index (some e) true hf2 hr2
    (getMasterId_force_mint name st2 index) hexp

/-- A concrete world whose master slot holds a stale owner stamped at
`100` while the clock reads `0`. -/
def stOwn100 : St where
  store := fun k =>
    if k = "L/master-id/0" then
      some (Value.wrapped ⟨some ⟨100, "x", some "y"⟩, "n"⟩)
    else if k = "L/session-id" then some (Value.str "s") else none
  glob := fun k => if k = "L/ephemeral-id" then some "e" else none
  times := fun _ => 0
  timeIdx := 0
  rands := fun _ => "r"
  randIdx := 0
  failSet := fun _ => false
  setIdx := 0

/-- C6 witness: a concrete stale owner (timestamp `100`, current clock
`0`, threshold `10`) is stolen: the call returns `1` — positive — after
one forced retry. -/
theorem lockAge_expire_steals_witness :
    ∃ n st'', lockAge 2 "L" stOwn100 0 (some 10) false =
        some (some n, st'') ∧ 0 < n ∧
      ∃ (m : MasterId) (nc : String),
        st''.store (getMasterIdPath "L" 0) =
          some (Value.wrapped ⟨some m, nc⟩) :=
  lockAge_expire_steals "L" stOwn100 0 10 ⟨100, "x", some "y"⟩
    ⟨some ⟨100, "x", some "y"⟩, "n"⟩ rfl rfl (fun _ => rfl)
    (fun _ => by show ("r" : String) ≠ ""; decide) (by decide) (by decide)

/-! ## Claim C8 -/

/-- C8: constructing a `Lock` with the `clear` flag deletes exactly the
ambient ephemeral-id entry for the lock's name: the durable store (hence
the session-id key and every master-id slot) is untouched, every other
ambient key is untouched, and the deleted key collides with neither the
session-id key nor any master-id key of that name. -/
theorem construct_clear_only_ephemeral (name : Option String) (st : St)
    (nm : String) (st' : St) (h : construct name true st = (nm, st')) :
    st'.store = st.store ∧
    st'.glob (getEphemeralPath nm) = none ∧
    (∀ k, k ≠ getEphemeralPath nm → st'.glob k = st.glob k) ∧
    getEphemeralPath nm ≠ getSessionIdPath nm ∧
    ∀ i : Int, getEphemeralPath nm ≠ getMasterIdPath nm i := by
  rcases name with _ | n
  · unfold construct nextRand at h
    simp at h
    obtain ⟨h1, h2⟩ := h
    subst h1
    subst h2
    exact ⟨rfl, by simp [upd], fun k hk => by simp [upd, hk],
      ephemeralPath_ne_sessionPath _, fun i => ephemeralPath_ne_masterIdPath _ i⟩
  · by_cases hn : n = ""
    · unfold construct nextRand at h
      simp [hn] at h
      obtain ⟨h1, h2⟩ := h
      subst h1
      subst h2
      exact ⟨rfl, by simp [upd], fun k hk => by simp [upd, hk],
        ephemeralPath_ne_sessionPath _,
        fun i => ephemeralPath_ne_masterIdPath _ i⟩
    · unfold construct at h
      simp [hn] at h
      obtain ⟨h1, h2⟩ := h
      subst h1
      subst h2
      exact ⟨rfl, by simp [upd], fun k hk => by simp [upd, hk],
        ephemeralPath_ne_sessionPath _,
        fun i => ephemeralPath_ne_masterIdPath _ i⟩

/-- The world after constructing a cleared lock named `"L"` on `st0`. -/
def stClr : St :=
  { st0 with glob := upd st0.glob (getEphemeralPath "L") none }

/-- C8 witness: the concrete cleared construction erases the ambient
ephemeral id and leaves the durable store intact. -/
theorem construct_clear_only_ephemeral_witness :
    construct (some "L") true st0 = ("L", stClr) ∧
    stClr.store = st0.store ∧
    stClr.glob (getEphemeralPath "L") = none :=
  ⟨rfl,
    (construct_clear_only_ephemeral (some "L") st0 "L" stClr rfl).1,
    (construct_clear_only_ephemeral (some "L") st0 "L" stClr rfl).2.1⟩

/-! ## Claim C10 -/

/-- C10: an empty-string name is falsy, so it is treated exactly like an
absent name — the lock gets a freshly minted random name; two locks
constructed in sequence with name `""` draw distinct tokens (assumed
distinct and of equal length, as `random(8)` produces) and therefore
address disjoint storage keys of every kind. -/
theorem construct_empty_name_fresh (st : St) (clear : Bool)
    (hlen : (st.rands st.randIdx).length =
      (st.rands (st.randIdx + 1)).length)
    (hne : st.rands st.randIdx ≠ st.rands (st.randIdx + 1)) :
    construct (some "") clear st = construct none clear st ∧
    ∀ nm1 st1 nm2 st2,
      construct (some "") false st = (nm1, st1) →
      construct (some "") false st1 = (nm2, st2) →
      nm1 ≠ nm2 ∧
      (∀ i j : Int, getMasterIdPath nm1 i ≠ getMasterIdPath nm2 j) ∧
      getSessionIdPath nm1 ≠ getSessionIdPath nm2 ∧
      getEphemeralPath nm1 ≠ getEphemeralPath nm2 ∧
      ∀ s t : String, nm1 ++ s ≠ nm2 ++ t := by
  constructor
  · rfl
  · intro nm1 st1 nm2 st2 h1 h2
    unfold construct nextRand at h1 h2
    simp at h1 h2
    obtain ⟨h1a, h1b⟩ := h1
    subst h1a
    subst h1b
    obtain ⟨h2a, h2b⟩ := h2
    subst h2a
    subst h2b
    have key : ∀ s t : String,
        st.rands st.randIdx ++ s ≠ st.rands (st.randIdx + 1) ++ t :=
      fun s t => append_ne_of_ne _ _ s t hlen hne
    refine ⟨hne, ?_, key _ _, key _ _, key⟩
    intro i j
    unfold getMasterIdPath
    rw [String.append_assoc, String.append_assoc]
    exact key _ _

/-- A concrete world with two distinct equal-length random tokens. -/
def stRnd : St where
  store := fun _ => none
  glob := fun _ => none
  times := fun _ => 0
  timeIdx := 0
  rands := fun k => if k = 0 then "aaaaaaaa" else "bbbbbbbb"
  randIdx := 0
  failSet := fun _ => false
  setIdx := 0

/-- C10 witness: the two concrete anonymous locks get the two distinct
tokens as names, and their keys are pairwise distinct. -/
theorem construct_empty_name_fresh_witness :
    construct (some "") true stRnd = construct none true stRnd ∧
    ("aaaaaaaa" : String) ≠ "bbbbbbbb" ∧
    getMasterIdPath "aaaaaaaa" 0 ≠ getMasterIdPath "bbbbbbbb" 0 ∧
    getSessionIdPath "aaaaaaaa" ≠ getSessionIdPath "bbbbbbbb" ∧
    getEphemeralPath "aaaaaaaa" ≠ getEphemeralPath "bbbbbbbb" := by
  have h := construct_empty_name_fresh stRnd true (by rfl) (by decide)
  have h3 := h.2 "aaaaaaaa" { stRnd with randIdx := 1 } "bbbbbbbb"
    { stRnd with randIdx := 2 } rfl rfl
  exact ⟨h.1, h3.1, h3.2.1 0 0, h3.2.2.1, h3.2.2.2.1⟩
